import Mathlib

/-!
Shallow embedding of the CLI_HUB analysis-and-recommendation engine:
`src/backend/src/services/analyzerService.ts`,
`src/backend/src/services/recommendationService.ts` and the boundary
validation of `src/backend/src/routes/analyze.ts`.

Strings are modelled as lists of characters.  The JS regular-expression
whole-word test `new RegExp ("\\b" + escapeRegex word + "\\b", "i")` is
modelled by an explicit scan over the possible match positions with an
explicit word-boundary predicate.  The static catalogs (`categories.json`,
`features.json`), which the services load from disk at start-up, are passed
as explicit read-only parameters.
-/

namespace CliHub

/-- Strings are modelled as lists of characters. -/
abbrev Str := List Char

/-- JS `\w` word characters: ASCII letters, digits and underscore. -/
def isWordChar (c : Char) : Bool :=
  ('a' ≤ c && c ≤ 'z') || ('A' ≤ c && c ≤ 'Z') || ('0' ≤ c && c ≤ '9') || c == '_'

/-- JS `\s` whitespace, restricted to the ASCII whitespace characters. -/
def isSpaceCh (c : Char) : Bool :=
  c == ' ' || c == '\t' || c == '\n' || c == '\r'

/-- Character-wise lowercasing; `Char.toLower` is the ASCII lowercase map,
which models JS `toLowerCase` on the ASCII catalogs the engine handles. -/
def lowStr (s : Str) : Str := s.map Char.toLower

/-- One step of `task.replace(/[^\w\s-]/g, ' ')` (analyzerService.ts:83):
any character that is not a word character, whitespace or a hyphen becomes
a space. -/
def scrubChar (c : Char) : Char :=
  if isWordChar c || isSpaceCh c || c == '-' then c else ' '

/-- `task.replace(/\s+/g, ' ')` (analyzerService.ts:84): collapse every
whitespace run into a single space; `prev` records whether the previous
character was whitespace. -/
def collapseWs (prev : Bool) : Str → Str
  | [] => []
  | c :: cs =>
    if isSpaceCh c then
      if prev then collapseWs true cs else ' ' :: collapseWs true cs
    else c :: collapseWs false cs

/-- JS `String.prototype.trim`. -/
def trimWs (s : Str) : Str :=
  ((s.dropWhile isSpaceCh).reverse.dropWhile isSpaceCh).reverse

/-- `normalizeTask` (analyzerService.ts:80): lowercase, replace special
characters by spaces, collapse whitespace, trim. -/
def normalizeTask (task : Str) : Str :=
  trimWs (collapseWs false ((lowStr task).map scrubChar))

/-- Does position `p` of `t` hold a word character?  Positions out of range
count as non-word positions. -/
def wordCharAt (t : Str) (p : Nat) : Bool :=
  isWordChar (t.getD p ' ')

/-- JS regex `\b`: a word boundary sits at position `p` when exactly one of
the two adjacent positions holds a word character. -/
def boundaryAt (t : Str) (p : Nat) : Bool :=
  (decide (p ≠ 0) && wordCharAt t (p - 1)) != wordCharAt t p

/-- The word matches literally and case-insensitively at position `i`. -/
def matchAt (t w : Str) (i : Nat) : Bool :=
  decide (i + w.length ≤ t.length) &&
  decide (lowStr ((t.drop i).take w.length) = lowStr w)

/-- `hasWholeWord` (analyzerService.ts:91 and recommendationService.ts:88):
the escaped word is matched case-insensitively between two word
boundaries somewhere in the text. -/
def hasWholeWord (t w : Str) : Bool :=
  (List.range (t.length + 1)).any fun i =>
    matchAt t w i && boundaryAt t i && boundaryAt t (i + w.length)

/-- JS `Set` accumulation: append `x` unless it is already present. -/
def addUnique [DecidableEq α] (seen : List α) (x : α) : List α :=
  if x ∈ seen then seen else seen ++ [x]

/-- Deduplication keeping the first occurrence of each element, the order in
which a JS `Set` iterates; `seen` holds the elements already emitted. -/
def dedupSeen [DecidableEq α] (seen : List α) : List α → List α
  | [] => []
  | x :: xs => if x ∈ seen then dedupSeen seen xs else x :: dedupSeen (seen ++ [x]) xs

/-- `[...new Set(l)]`: the distinct elements of `l` in first-occurrence order. -/
def dedupFirst [DecidableEq α] (l : List α) : List α := dedupSeen [] l

/-- JS `Array.prototype.includes` on string arrays. -/
def includes (l : List Str) (x : Str) : Bool := decide (x ∈ l)

/-- Insert a score into a descending-sorted list of scores. -/
def insertDesc (x : Nat) : List Nat → List Nat
  | [] => [x]
  | y :: ys => if x ≥ y then x :: y :: ys else y :: insertDesc x ys

/-- Sort a list of scores in descending order. -/
def sortDesc : List Nat → List Nat
  | [] => []
  | x :: xs => insertDesc x (sortDesc xs)

/-- JS `Array.prototype.sort` with comparator `(a, b) => score b - score a`
is guaranteed stable (ES2019): the result lists the elements group by group,
one group per distinct score in descending order, keeping the original
order inside every group. -/
def stableSortDesc (score : α → Nat) (l : List α) : List α :=
  ((sortDesc (dedupFirst (l.map score))).map fun s =>
    l.filter fun x => decide (score x = s)).flatten

/-- The seven feature types (recommendationService.ts:31). -/
inductive FeatureType
  | skill | agent | mcp | hook | command | setting | claudemd
deriving DecidableEq

/-- The per-type default feature id lists of a category (`defaultFeatures`,
analyzerService.ts:33; every field is optional in the source, an absent
field behaving as the empty list). -/
structure DefaultFeatures where
  agents : List Str := []
  skills : List Str := []
  mcps : List Str := []
  hooks : List Str := []
  commands : List Str := []
  settings : List Str := []
  claudemd : List Str := []
deriving DecidableEq

/-- `categoryDefaults[typeKey]` where
`typeKey = type === 'claudemd' ? 'claudemd' : type + 's'`
(recommendationService.ts:121). -/
def DefaultFeatures.forType (d : DefaultFeatures) : FeatureType → List Str
  | .skill => d.skills
  | .agent => d.agents
  | .mcp => d.mcps
  | .hook => d.hooks
  | .command => d.commands
  | .setting => d.settings
  | .claudemd => d.claudemd

/-- The string `type + 's'` used by the boost check
(recommendationService.ts:132); note that for `claudemd` this is the
string "claudemds". -/
def FeatureType.plural : FeatureType → Str
  | .skill => ("skills").toList
  | .agent => ("agents").toList
  | .mcp => ("mcps").toList
  | .hook => ("hooks").toList
  | .command => ("commands").toList
  | .setting => ("settings").toList
  | .claudemd => ("claudemds").toList

/-- The bare feature-type string, also accepted by the boost check
(recommendationService.ts:133). -/
def FeatureType.bare : FeatureType → Str
  | .skill => ("skill").toList
  | .agent => ("agent").toList
  | .mcp => ("mcp").toList
  | .hook => ("hook").toList
  | .command => ("command").toList
  | .setting => ("setting").toList
  | .claudemd => ("claudemd").toList

/-- `TaskCategory` (analyzerService.ts:28). -/
structure TaskCategory where
  id : Str
  name : Str
  description : Str := []
  keywords : List Str
  defaultFeatures : DefaultFeatures := {}
deriving DecidableEq

/-- `TaskPattern` (analyzerService.ts:44).  The `pattern` field of the data
is a word or an alternation `w1|w2|...` spliced into the regex
`\b(pattern)\b` (analyzerService.ts:182); it is modelled as the list of its
alternatives.  An absent `priorityAgents` field is modelled as `[]`, which
behaves identically (the `if (p.priorityAgents)` guard). -/
structure TaskPattern where
  pattern : List Str
  boost : List Str
  priorityAgents : List Str := []
  description : Str := []
deriving DecidableEq

/-- The `complexityIndicators` word lists of `categories.json`
(analyzerService.ts:195). -/
structure ComplexityIndicators where
  simple : List Str
  moderate : List Str
  complex : List Str
deriving DecidableEq

/-- The static contents of `categories.json` used by the analyzer. -/
structure CategoriesData where
  categories : List TaskCategory
  taskPatterns : List TaskPattern
  complexityIndicators : ComplexityIndicators
deriving DecidableEq

/-- The three complexity levels (analyzerService.ts:67). -/
inductive Complexity
  | simple | moderate | complex
deriving DecidableEq

/-- One entry of `AnalysisResult.categories` (analyzerService.ts:59). -/
structure CategoryMatch where
  category : TaskCategory
  score : Nat
  matchedKeywords : List Str
deriving DecidableEq

/-- `AnalysisResult` (analyzerService.ts:51). -/
structure AnalysisResult where
  originalTask : Str
  normalizedTask : Str
  keywords : List Str
  categories : List CategoryMatch
  patterns : List TaskPattern
  complexity : Complexity
  boostFeatureTypes : List Str
  priorityAgents : List Str
deriving DecidableEq

/-- Minimum score for a category to be considered relevant
(analyzerService.ts:75). -/
def MIN_CATEGORY_SCORE : Nat := 10

/-- `extractKeywords` (analyzerService.ts:107): collect the set of all
lowercased keywords of every category, keep those that occur as whole words
in the normalized task, and deduplicate. -/
def extractKeywords (cats : List TaskCategory) (normalized : Str) : List Str :=
  let allKeywords := dedupFirst (cats.flatMap fun c => c.keywords.map lowStr)
  dedupFirst (allKeywords.filter fun kw => hasWholeWord normalized kw)

/-- The body of the `matchCategories` loop (analyzerService.ts:137-163) for
one category: rule 1 walks the extracted keywords adding +10 for each that
is one of the category's keywords; rule 2 walks the category's keywords
adding +5 for each that is not yet in `matchedKeywords` and whole-word
matches the task; rule 3 adds +15 when the category name or id occurs in
the task.  Returns the accumulated (score, matchedKeywords). -/
def scoreCategory (nt : Str) (keywords : List Str) (category : TaskCategory) :
    Nat × List Str :=
  let categoryKeywords := category.keywords.map lowStr
  let step1 := keywords.foldl
    (fun acc keyword =>
      if decide (keyword ∈ categoryKeywords) then (acc.1 ++ [keyword], acc.2 + 10)
      else acc)
    (([] : List Str), 0)
  let step2 := categoryKeywords.foldl
    (fun acc catKeyword =>
      if !(includes acc.1 catKeyword) && hasWholeWord nt catKeyword then
        (acc.1 ++ [catKeyword], acc.2 + 5)
      else acc)
    step1
  let score := step2.2 +
    (if hasWholeWord nt (lowStr category.name) || hasWholeWord nt (lowStr category.id)
     then 15 else 0)
  (score, step2.1)

/-- `matchCategories` (analyzerService.ts:131): score every category, keep
those reaching `MIN_CATEGORY_SCORE`, sort by score descending (the JS sort
is stable). -/
def matchCategories (cats : List TaskCategory) (nt : Str) (keywords : List Str) :
    List CategoryMatch :=
  let results := cats.filterMap fun category =>
    let r := scoreCategory nt keywords category
    if r.1 ≥ MIN_CATEGORY_SCORE then
      some { category := category, score := r.1, matchedKeywords := r.2 }
    else none
  stableSortDesc (fun m => m.score) results

/-- `detectPatterns` (analyzerService.ts:178): a pattern matches when some
alternative of its `pattern` field occurs whole-word in the task. -/
def detectPatterns (pats : List TaskPattern) (nt : Str) : List TaskPattern :=
  pats.filter fun p => p.pattern.any fun alt => hasWholeWord nt alt

/-- Whole-word hit count of one indicator list (analyzerService.ts:201-211). -/
def countHits (nt : Str) (ws : List Str) : Nat :=
  ws.countP fun w => hasWholeWord nt w

/-- The decision chain of `determineComplexity` (analyzerService.ts:218-223)
on the three weighted totals. -/
def complexityDecision (totalSimple totalModerate totalComplex : ℚ) : Complexity :=
  if totalComplex ≥ totalModerate ∧ totalComplex ≥ totalSimple then .complex
  else if totalModerate ≥ totalSimple then .moderate
  else .simple

/-- `determineComplexity` (analyzerService.ts:194): count whole-word hits in
each indicator list, weight them simple ×1, moderate ×1.5, complex ×2, and
decide. -/
def determineComplexity (ind : ComplexityIndicators) (nt : Str) : Complexity :=
  complexityDecision
    (countHits nt ind.simple)
    ((3 / 2) * countHits nt ind.moderate)
    (2 * countHits nt ind.complex)

/-- `analyzeTask` (analyzerService.ts:229). -/
def analyzeTask (cd : CategoriesData) (taskDescription : Str) : AnalysisResult :=
  let normalizedTask := normalizeTask taskDescription
  let keywords := extractKeywords cd.categories normalizedTask
  let categories := matchCategories cd.categories normalizedTask keywords
  let patterns := detectPatterns cd.taskPatterns normalizedTask
  let complexity := determineComplexity cd.complexityIndicators normalizedTask
  { originalTask := taskDescription
    normalizedTask := normalizedTask
    keywords := keywords
    categories := categories
    patterns := patterns
    complexity := complexity
    boostFeatureTypes := dedupFirst (patterns.flatMap fun p => p.boost)
    priorityAgents := dedupFirst (patterns.flatMap fun p => p.priorityAgents) }

/-- The result shape of `quickAnalyze` (analyzerService.ts:263). -/
structure QuickResult where
  keywords : List Str
  topCategories : List Str
  complexity : Complexity
deriving DecidableEq

/-- `quickAnalyze` (analyzerService.ts:263): run the full analysis and
truncate. -/
def quickAnalyze (cd : CategoriesData) (taskDescription : Str) : QuickResult :=
  let result := analyzeTask cd taskDescription
  { keywords := result.keywords.take 10
    topCategories := (result.categories.take 3).map fun c => c.category.id
    complexity := result.complexity }

/-- `Feature` (recommendationService.ts:33); the optional example fields,
never read by the engine, are omitted. -/
structure Feature where
  id : Str
  name : Str := []
  description : Str := []
  whenToUse : Str := []
  installCommand : Str := []
  source : Str := []
  category : Str := []
  keywords : List Str
deriving DecidableEq

/-- The match reasons pushed by `scoreFeature`, one constructor per reason
string: "Matches keyword: X", "Recommended for N", "Matches task pattern",
"Priority for this task type", "Task mentions: X". -/
inductive Reason
  | matchesKeyword (kw : Str)
  | recommendedFor (categoryName : Str)
  | matchesPattern
  | priorityForTask
  | taskMentions (kw : Str)
deriving DecidableEq

/-- `ScoredFeature` (recommendationService.ts:47). -/
structure ScoredFeature where
  feature : Feature
  type : FeatureType
  score : Nat
  matchReasons : List Reason
  isPriority : Bool
deriving DecidableEq

/-- Minimum score for a feature to be shown (recommendationService.ts:82). -/
def MIN_FEATURE_SCORE : Nat := 15

/-- Score above which a feature is marked priority
(recommendationService.ts:83). -/
def MIN_PRIORITY_SCORE : Nat := 40

/-- `scoreFeature` (recommendationService.ts:98): five additive signals,
each accumulating its score contribution and one reason per firing. -/
def scoreFeature (feature : Feature) (type : FeatureType)
    (analysis : AnalysisResult) : Nat × List Reason :=
  let featureKeywords := feature.keywords.map lowStr
  -- 1. direct keyword matching: +25 per extracted keyword that is a
  -- feature keyword (case-insensitive)
  let st1 := analysis.keywords.foldl
    (fun acc keyword =>
      if decide (lowStr keyword ∈ featureKeywords) then
        (acc.1 + 25, acc.2 ++ [.matchesKeyword keyword])
      else acc)
    (0, ([] : List Reason))
  -- 2. category default features: +20 for the top category, +10 otherwise
  let st2 := analysis.categories.enum.foldl
    (fun acc p =>
      if decide (feature.id ∈ p.2.category.defaultFeatures.forType type) then
        (acc.1 + (if p.1 = 0 then 20 else 10),
         acc.2 ++ [.recommendedFor p.2.category.name])
      else acc)
    st1
  -- 3. feature type boost from detected patterns
  let st3 :=
    if decide (type.plural ∈ analysis.boostFeatureTypes) ||
       decide (type.bare ∈ analysis.boostFeatureTypes) then
      (st2.1 + 10, st2.2 ++ [.matchesPattern])
    else st2
  -- 4. priority agent boost
  let st4 :=
    if decide (feature.id ∈ analysis.priorityAgents) then
      (st3.1 + 30, st3.2 ++ [.priorityForTask])
    else st3
  -- 5. whole-word keyword match in the task text, 3+ character keywords
  -- only, skipping keywords already counted under signal 1
  featureKeywords.foldl
    (fun acc keyword =>
      if decide (keyword.length ≥ 3) && hasWholeWord analysis.normalizedTask keyword then
        if !(decide (keyword ∈ analysis.keywords)) then
          (acc.1 + 10, acc.2 ++ [.taskMentions keyword])
        else acc
      else acc)
    st4

/-- The static contents of `features.json`. -/
structure FeaturesData where
  skills : List Feature := []
  agents : List Feature := []
  mcps : List Feature := []
  hooks : List Feature := []
  commands : List Feature := []
  settings : List Feature := []
  claudemd : List Feature := []
deriving DecidableEq

/-- `getFeaturesByType` (recommendationService.ts:163). -/
def getFeaturesByType (fd : FeaturesData) : FeatureType → List Feature
  | .skill => fd.skills
  | .agent => fd.agents
  | .mcp => fd.mcps
  | .hook => fd.hooks
  | .command => fd.commands
  | .setting => fd.settings
  | .claudemd => fd.claudemd

/-- `recommendFeatureType` (recommendationService.ts:180): score every
feature of the type, keep those reaching `MIN_FEATURE_SCORE` with
`isPriority = score ≥ MIN_PRIORITY_SCORE`, sort by score descending
(stable) and keep the first `maxResults`. -/
def recommendFeatureType (fd : FeaturesData) (type : FeatureType)
    (analysis : AnalysisResult) (maxResults : Nat := 5) : List ScoredFeature :=
  let features := getFeaturesByType fd type
  let scored := features.filterMap fun feature =>
    let r := scoreFeature feature type analysis
    if r.1 ≥ MIN_FEATURE_SCORE then
      some { feature := feature, type := type, score := r.1, matchReasons := r.2,
             isPriority := decide (r.1 ≥ MIN_PRIORITY_SCORE) }
    else none
  (stableSortDesc (fun s => s.score) scored).take maxResults

/-- Case-sensitive substring containment, JS `String.prototype.includes`. -/
def isSubstringOf (needle hay : Str) : Bool :=
  (List.range (hay.length + 1)).any fun i =>
    decide ((hay.drop i).take needle.length = needle)

/-- The quick-win filter (recommendationService.ts:241-246): score at least
30 and built-in source, or a command, or an install command mentioning
"Built-in". -/
def quickWinTest (r : ScoredFeature) : Bool :=
  decide (r.score ≥ 30) &&
  (decide (r.feature.source = ("built-in").toList) ||
   decide (r.type = FeatureType.command) ||
   isSubstringOf ("Built-in").toList r.feature.installCommand)

/-- `RecommendationResult` (recommendationService.ts:55), with the nested
`analysis` and `summary` objects flattened into prefixed fields. -/
structure RecommendationResult where
  analysisTask : Str
  analysisComplexity : Complexity
  analysisTopCategories : List Str
  analysisDetectedKeywords : List Str
  skills : List ScoredFeature
  agents : List ScoredFeature
  mcps : List ScoredFeature
  hooks : List ScoredFeature
  commands : List ScoredFeature
  settings : List ScoredFeature
  claudemd : List ScoredFeature
  totalRecommendations : Nat
  topPriority : List ScoredFeature
  quickWins : List ScoredFeature
deriving DecidableEq

/-- `allRecommendations` (recommendationService.ts:223): the concatenation
of the seven per-type recommendation lists. -/
def allRecommendations (fd : FeaturesData) (analysis : AnalysisResult) :
    List ScoredFeature :=
  recommendFeatureType fd .skill analysis ++ recommendFeatureType fd .agent analysis
    ++ recommendFeatureType fd .mcp analysis ++ recommendFeatureType fd .hook analysis
    ++ recommendFeatureType fd .command analysis
    ++ recommendFeatureType fd .setting analysis
    ++ recommendFeatureType fd .claudemd analysis

/-- `topPriority` (recommendationService.ts:234): the priority-flagged
recommendations, sorted by score descending, first five. -/
def topPriorityList (fd : FeaturesData) (analysis : AnalysisResult) :
    List ScoredFeature :=
  (stableSortDesc (fun r => r.score)
    ((allRecommendations fd analysis).filter fun r => r.isPriority)).take 5

/-- `quickWins` (recommendationService.ts:240): the high-scoring easy
installs, sorted by score descending, first three. -/
def quickWinsList (fd : FeaturesData) (analysis : AnalysisResult) :
    List ScoredFeature :=
  (stableSortDesc (fun r => r.score)
    ((allRecommendations fd analysis).filter quickWinTest)).take 3

/-- `generateRecommendations` (recommendationService.ts:212). -/
def generateRecommendations (fd : FeaturesData) (analysis : AnalysisResult) :
    RecommendationResult :=
  { analysisTask := analysis.originalTask
    analysisComplexity := analysis.complexity
    analysisTopCategories := (analysis.categories.take 3).map fun c => c.category.name
    analysisDetectedKeywords := analysis.keywords.take 10
    skills := recommendFeatureType fd .skill analysis
    agents := recommendFeatureType fd .agent analysis
    mcps := recommendFeatureType fd .mcp analysis
    hooks := recommendFeatureType fd .hook analysis
    commands := recommendFeatureType fd .command analysis
    settings := recommendFeatureType fd .setting analysis
    claudemd := recommendFeatureType fd .claudemd analysis
    totalRecommendations := (allRecommendations fd analysis).length
    topPriority := topPriorityList fd analysis
    quickWins := quickWinsList fd analysis }

/-- The `task` field of a request body: absent (or otherwise falsy), present
but not a string, or a string.  The empty string is falsy in JS, so it is
handled by the same `!task` guard as an absent field and is modelled by
`taskStr []`. -/
inductive BodyTask
  | missing
  | notAString
  | taskStr (s : Str)

/-- Response of `POST /api/analyze` (routes/analyze.ts:37). -/
inductive FullResponse
  | clientError (message : Str)
  | ok (result : RecommendationResult)
deriving DecidableEq

/-- Is the response the client-side validation error? -/
def FullResponse.isError : FullResponse → Bool
  | .clientError _ => true
  | .ok _ => false

/-- `analyzeRoutes.post('/')` (routes/analyze.ts:37): reject a missing or
non-string or falsy task, reject a task whose trimmed length is below 3,
otherwise run the engine. -/
def postAnalyze (cd : CategoriesData) (fd : FeaturesData) :
    BodyTask → FullResponse
  | .missing => .clientError ("Missing or invalid task").toList
  | .notAString => .clientError ("Missing or invalid task").toList
  | .taskStr s =>
    if s = [] then .clientError ("Missing or invalid task").toList
    else if (trimWs s).length < 3 then .clientError ("Task too short").toList
    else .ok (generateRecommendations fd (analyzeTask cd s))

/-- Response of `POST /api/analyze/quick` (routes/analyze.ts:89). -/
inductive QuickResponse
  | clientError (message : Str)
  | ok (result : QuickResult)
deriving DecidableEq

/-- Is the response the client-side validation error? -/
def QuickResponse.isError : QuickResponse → Bool
  | .clientError _ => true
  | .ok _ => false

/-- `analyzeRoutes.post('/quick')` (routes/analyze.ts:89): reject a missing
or non-string or falsy task, otherwise run the quick analysis; there is no
length check on this route. -/
def postAnalyzeQuick (cd : CategoriesData) : BodyTask → QuickResponse
  | .missing => .clientError ("Missing or invalid task").toList
  | .notAString => .clientError ("Missing or invalid task").toList
  | .taskStr s =>
    if s = [] then .clientError ("Missing or invalid task").toList
    else .ok (quickAnalyze cd s)

/-! Helper lemmas about the text and list primitives. -/

theorem toNat_ofNat_of_lt (n : Nat) (h : n < 55296) : (Char.ofNat n).toNat = n := by
  have hv : n.isValidChar := Or.inl h
  simp only [Char.ofNat, hv, dite_true, Char.ofNatAux, Char.toNat]
  simp [UInt32.toNat]

theorem toLower_idem (c : Char) : c.toLower.toLower = c.toLower := by
  simp only [Char.toLower]
  by_cases h : c.toNat ≥ 65 ∧ c.toNat ≤ 90
  · rw [if_pos h]
    rw [toNat_ofNat_of_lt (c.toNat + 32) (by omega)]
    rw [if_neg (by omega)]
  · rw [if_neg h, if_neg h]

theorem lowStr_idem (s : Str) : lowStr (lowStr s) = lowStr s := by
  simp only [lowStr, List.map_map]
  exact List.map_congr_left fun c _ => toLower_idem c

theorem mem_dedupSeen [DecidableEq α] (a : α) :
    ∀ (l seen : List α), a ∈ dedupSeen seen l ↔ a ∈ l ∧ a ∉ seen := by
  intro l
  induction l with
  | nil => intro seen; simp [dedupSeen]
  | cons x xs ih =>
    intro seen
    by_cases hx : x ∈ seen
    · rw [dedupSeen, if_pos hx, ih]
      constructor
      · rintro ⟨h1, h2⟩
        exact ⟨List.mem_cons_of_mem x h1, h2⟩
      · rintro ⟨h1, h2⟩
        rcases List.mem_cons.mp h1 with rfl | h1
        · exact absurd hx h2
        · exact ⟨h1, h2⟩
    · rw [dedupSeen, if_neg hx]
      by_cases hax : a = x
      · subst hax
        simp [hx]
      · rw [List.mem_cons]
        constructor
        · rintro (rfl | h)
          · exact absurd rfl hax
          · have := (ih (seen ++ [x])).mp h
            refine ⟨List.mem_cons_of_mem x this.1, fun hs => this.2 ?_⟩
            exact List.mem_append_left [x] hs
        · rintro ⟨h1, h2⟩
          rcases List.mem_cons.mp h1 with rfl | h1
          · exact absurd rfl hax
          · refine Or.inr ((ih (seen ++ [x])).mpr ⟨h1, fun hs => ?_⟩)
            rcases List.mem_append.mp hs with hs | hs
            · exact h2 hs
            · exact hax (List.mem_singleton.mp hs)

theorem mem_dedupFirst [DecidableEq α] (a : α) (l : List α) :
    a ∈ dedupFirst l ↔ a ∈ l := by
  rw [dedupFirst, mem_dedupSeen]
  simp

theorem mem_insertDesc (a x : Nat) :
    ∀ l : List Nat, a ∈ insertDesc x l ↔ a = x ∨ a ∈ l := by
  intro l
  induction l with
  | nil => simp [insertDesc]
  | cons y ys ih =>
    rw [insertDesc]
    by_cases h : x ≥ y
    · simp [h, List.mem_cons]
    · rw [if_neg h]
      simp only [List.mem_cons, ih]
      tauto

theorem mem_sortDesc (a : Nat) : ∀ l : List Nat, a ∈ sortDesc l ↔ a ∈ l := by
  intro l
  induction l with
  | nil => simp [sortDesc]
  | cons x xs ih => rw [sortDesc, mem_insertDesc, ih, List.mem_cons]

theorem pairwise_of_forall_mem {R : α → α → Prop} {l : List α}
    (h : ∀ a ∈ l, ∀ b ∈ l, R a b) : List.Pairwise R l := by
  induction l with
  | nil => exact List.Pairwise.nil
  | cons x xs ih =>
    refine List.Pairwise.cons (fun b hb => h x (List.mem_cons_self x xs) b
      (List.mem_cons_of_mem x hb)) (ih fun a ha b hb => ?_)
    exact h a (List.mem_cons_of_mem x ha) b (List.mem_cons_of_mem x hb)

theorem pairwise_insertDesc (x : Nat) {l : List Nat}
    (h : List.Pairwise (fun a b => b ≤ a) l) :
    List.Pairwise (fun a b => b ≤ a) (insertDesc x l) := by
  induction l with
  | nil => simp [insertDesc]
  | cons y ys ih =>
    rw [List.pairwise_cons] at h
    rw [insertDesc]
    by_cases hxy : x ≥ y
    · rw [if_pos hxy, List.pairwise_cons]
      refine ⟨fun b hb => ?_, List.pairwise_cons.mpr h⟩
      rcases List.mem_cons.mp hb with rfl | hb
      · exact hxy
      · exact le_trans (h.1 b hb) hxy
    · rw [if_neg hxy, List.pairwise_cons]
      refine ⟨fun b hb => ?_, ih h.2⟩
      rcases (mem_insertDesc b x ys).mp hb with rfl | hb
      · omega
      · exact h.1 b hb

theorem pairwise_sortDesc : ∀ l : List Nat,
    List.Pairwise (fun a b => b ≤ a) (sortDesc l) := by
  intro l
  induction l with
  | nil => exact List.Pairwise.nil
  | cons x xs ih => exact pairwise_insertDesc x ih

theorem mem_stableSortDesc (score : α → Nat) (l : List α) (a : α) :
    a ∈ stableSortDesc score l ↔ a ∈ l := by
  rw [stableSortDesc, List.mem_flatten]
  constructor
  · rintro ⟨blk, hblk, hablk⟩
    obtain ⟨s, _, rfl⟩ := List.mem_map.mp hblk
    exact (List.mem_filter.mp hablk).1
  · intro ha
    refine ⟨l.filter fun x => decide (score x = score a), ?_, ?_⟩
    · refine List.mem_map.mpr ⟨score a, ?_, rfl⟩
      rw [mem_sortDesc, mem_dedupFirst]
      exact List.mem_map.mpr ⟨a, ha, rfl⟩
    · exact List.mem_filter.mpr ⟨ha, by simp⟩

theorem pairwise_stableSortDesc (score : α → Nat) (l : List α) :
    List.Pairwise (fun a b => score b ≤ score a) (stableSortDesc score l) := by
  rw [stableSortDesc, List.pairwise_flatten]
  constructor
  · intro blk hblk
    obtain ⟨s, _, rfl⟩ := List.mem_map.mp hblk
    refine pairwise_of_forall_mem fun a ha b hb => ?_
    have ha2 := (List.mem_filter.mp ha).2
    have hb2 := (List.mem_filter.mp hb).2
    simp only [decide_eq_true_eq] at ha2 hb2
    omega
  · rw [List.pairwise_map]
    refine (pairwise_sortDesc _).imp ?_
    intro s1 s2 hle a ha b hb
    have ha2 := (List.mem_filter.mp ha).2
    have hb2 := (List.mem_filter.mp hb).2
    simp only [decide_eq_true_eq] at ha2 hb2
    omega

/-! Characterizations of the accumulating loops of the two services. -/

/-- A loop that appends the element and adds a constant weight whenever a
test fires (rule 1 of `matchCategories`). -/
theorem foldl_match_score (Q : α → Bool) (w : Nat) :
    ∀ (l : List α) (m : List α) (n : Nat),
    l.foldl (fun acc x => if Q x then (acc.1 ++ [x], acc.2 + w) else acc) (m, n)
      = (m ++ l.filter Q, n + w * l.countP Q) := by
  intro l
  induction l with
  | nil => intro m n; simp
  | cons x xs ih =>
    intro m n
    rw [List.foldl_cons]
    by_cases hx : Q x
    · rw [if_pos hx]
      rw [ih (m ++ [x]) (n + w)]
      rw [List.filter_cons_of_pos hx, List.countP_cons_of_pos _ _ hx]
      simp only [Prod.mk.injEq]
      exact ⟨by simp, by ring⟩
    · rw [if_neg hx]
      rw [ih m n, List.filter_cons_of_neg hx, List.countP_cons_of_neg _ _ hx]

/-- A loop that adds a per-element bonus and appends a reason whenever a
test fires (signals 1, 2 and 5 of `scoreFeature`). -/
theorem foldl_bonus_reasons (Q : α → Bool) (bonus : α → Nat) (r : α → Reason) :
    ∀ (l : List α) (n : Nat) (rs : List Reason),
    l.foldl (fun acc x => if Q x then (acc.1 + bonus x, acc.2 ++ [r x]) else acc) (n, rs)
      = (n + ((l.filter Q).map bonus).sum, rs ++ (l.filter Q).map r) := by
  intro l
  induction l with
  | nil => intro n rs; simp
  | cons x xs ih =>
    intro n rs
    rw [List.foldl_cons]
    by_cases hx : Q x
    · rw [if_pos hx, ih (n + bonus x) (rs ++ [r x])]
      rw [List.filter_cons_of_pos hx]
      simp only [Prod.mk.injEq, List.map_cons, List.sum_cons]
      exact ⟨by ring, by simp⟩
    · rw [if_neg hx, ih n rs, List.filter_cons_of_neg hx]

/-- Filtering the emitted deduplicated list only depends on the visibility
of the elements the filter keeps. -/
theorem dedupSeen_filter_congr [DecidableEq α] (P : α → Bool) :
    ∀ (ks s1 s2 : List α), (∀ a, P a = true → (a ∈ s1 ↔ a ∈ s2)) →
    (dedupSeen s1 ks).filter P = (dedupSeen s2 ks).filter P := by
  intro ks
  induction ks with
  | nil => intro s1 s2 _; simp [dedupSeen]
  | cons k ks ih =>
    intro s1 s2 h
    by_cases hP : P k
    · have hk := h k hP
      by_cases h1 : k ∈ s1
      · rw [dedupSeen, if_pos h1, dedupSeen, if_pos (hk.mp h1)]
        exact ih s1 s2 h
      · rw [dedupSeen, if_neg h1, dedupSeen, if_neg (fun hc => h1 (hk.mpr hc))]
        rw [List.filter_cons_of_pos hP, List.filter_cons_of_pos hP]
        refine congrArg (k :: ·) (ih _ _ fun a ha => ?_)
        simp only [List.mem_append, List.mem_singleton]
        rw [h a ha]
    · by_cases h1 : k ∈ s1 <;> by_cases h2 : k ∈ s2
      · rw [dedupSeen, if_pos h1, dedupSeen, if_pos h2]
        exact ih s1 s2 h
      · rw [dedupSeen, if_pos h1, dedupSeen, if_neg h2]
        rw [List.filter_cons_of_neg (by simp [hP])]
        refine ih s1 (s2 ++ [k]) fun a ha => ?_
        rw [h a ha]
        simp only [List.mem_append, List.mem_singleton]
        constructor
        · exact Or.inl
        · rintro (h3 | rfl)
          · exact h3
          · exact absurd ha (by simp [hP])
      · rw [dedupSeen, if_neg h1, dedupSeen, if_pos h2]
        rw [List.filter_cons_of_neg (by simp [hP])]
        refine ih (s1 ++ [k]) s2 fun a ha => ?_
        rw [← h a ha]
        simp only [List.mem_append, List.mem_singleton]
        constructor
        · rintro (h3 | rfl)
          · exact h3
          · exact absurd ha (by simp [hP])
        · exact Or.inl
      · rw [dedupSeen, if_neg h1, dedupSeen, if_neg h2]
        rw [List.filter_cons_of_neg (by simp [hP]), List.filter_cons_of_neg (by simp [hP])]
        refine ih (s1 ++ [k]) (s2 ++ [k]) fun a ha => ?_
        simp only [List.mem_append, List.mem_singleton]
        rw [h a ha]

/-- Splitting the seed of `dedupSeen` into a filtered part. -/
theorem dedupSeen_filter_split [DecidableEq α] (P : α → Bool) :
    ∀ (ks m t : List α),
    (dedupSeen (m ++ t) ks).filter P
      = (dedupSeen t ks).filter fun k => P k && !(decide (k ∈ m)) := by
  intro ks
  induction ks with
  | nil => intro m t; simp [dedupSeen]
  | cons k ks ih =>
    intro m t
    by_cases ht : k ∈ t
    · rw [dedupSeen, if_pos (List.mem_append_right m ht), dedupSeen, if_pos ht]
      exact ih m t
    · by_cases hm : k ∈ m
      · rw [dedupSeen, if_pos (List.mem_append_left t hm), dedupSeen, if_neg ht]
        rw [List.filter_cons_of_neg (by simp [hm])]
        rw [← ih m (t ++ [k])]
        refine dedupSeen_filter_congr _ ks (m ++ t) (m ++ (t ++ [k])) fun a _ => ?_
        simp only [List.mem_append, List.mem_singleton]
        constructor
        · tauto
        · rintro (h | h | rfl) <;> tauto
      · rw [dedupSeen, if_neg (by simp [hm, ht]), dedupSeen, if_neg ht]
        have hrest := ih m (t ++ [k])
        rw [← List.append_assoc] at hrest
        by_cases hP : P k
        · rw [List.filter_cons_of_pos hP, List.filter_cons_of_pos (by simp [hP, hm])]
          exact congrArg (k :: ·) hrest
        · rw [List.filter_cons_of_neg (by simp [hP]), List.filter_cons_of_neg (by simp [hP])]
          exact hrest

/-- Seeding `dedupSeen` with already-matched elements is filtering them out. -/
theorem dedupSeen_filter_seed [DecidableEq α] (P : α → Bool) (ks m : List α) :
    (dedupSeen m ks).filter P
      = (dedupFirst ks).filter fun k => P k && !(decide (k ∈ m)) := by
  have := dedupSeen_filter_split P ks m []
  rw [List.append_nil] at this
  exact this

/-- The seed lemma at string lists, phrased with `includes`. -/
theorem dedupSeen_filter_seed_str (P : Str → Bool) (ks m : List Str) :
    (dedupSeen m ks).filter P
      = (dedupFirst ks).filter fun k => P k && !(includes m k) := by
  rw [dedupSeen_filter_seed]
  refine List.filter_congr fun k _ => ?_
  simp only [includes]
  exact congrArg (fun b => P k && !b) (decide_eq_decide.mpr Iff.rfl)

/-- Rule 2 of `matchCategories`: the loop accepts, in order, the distinct
category keywords that pass the test and are not yet in the matched list,
adding +5 for each. -/
theorem foldl_rule2 (P : Str → Bool) :
    ∀ (ks : List Str) (m : List Str) (n : Nat),
    ks.foldl (fun acc k =>
        if !(includes acc.1 k) && P k then (acc.1 ++ [k], acc.2 + 5) else acc) (m, n)
      = (m ++ (dedupSeen m ks).filter P,
         n + 5 * ((dedupSeen m ks).filter P).length) := by
  intro ks
  induction ks with
  | nil => intro m n; simp [dedupSeen]
  | cons k ks ih =>
    intro m n
    rw [List.foldl_cons]
    by_cases hm : k ∈ m
    · rw [if_neg (by simp [includes, hm]), dedupSeen, if_pos hm]
      exact ih m n
    · rw [dedupSeen, if_neg hm]
      by_cases hP : P k
      · rw [if_pos (by simp [includes, hm, hP]), ih (m ++ [k]) (n + 5)]
        rw [List.filter_cons_of_pos hP]
        simp only [Prod.mk.injEq, List.length_cons]
        exact ⟨by simp, by ring⟩
      · rw [if_neg (by simp [hP]), ih m n, List.filter_cons_of_neg (by simp [hP])]
        have hcong : (dedupSeen (m ++ [k]) ks).filter P = (dedupSeen m ks).filter P := by
          refine dedupSeen_filter_congr P ks (m ++ [k]) m fun a ha => ?_
          simp only [List.mem_append, List.mem_singleton]
          constructor
          · rintro (h | rfl)
            · exact h
            · exact absurd ha hP
          · exact Or.inl
        rw [hcong]

/-- Sum of a constant weight over the elements passing a test. -/
theorem sum_map_const_filter (w : Nat) (Q : α → Bool) :
    ∀ l : List α, ((l.filter Q).map fun _ => w).sum = w * l.countP Q := by
  intro l
  induction l with
  | nil => simp
  | cons x xs ih =>
    by_cases hx : Q x
    · rw [List.filter_cons_of_pos hx, List.countP_cons_of_pos _ _ hx]
      simp only [List.map_cons, List.sum_cons, ih]
      ring
    · rw [List.filter_cons_of_neg hx, List.countP_cons_of_neg _ _ hx, ih]

/-- A sum over the passing elements equals the sum of the guarded bonuses. -/
theorem sum_filter_map (Q : α → Bool) (b : α → Nat) :
    ∀ l : List α, ((l.filter Q).map b).sum = (l.map fun x => if Q x then b x else 0).sum := by
  intro l
  induction l with
  | nil => simp
  | cons x xs ih =>
    by_cases hx : Q x
    · rw [List.filter_cons_of_pos hx]
      simp only [List.map_cons, List.sum_cons, ih, if_pos hx]
    · rw [List.filter_cons_of_neg hx]
      simp only [List.map_cons, List.sum_cons, ih, if_neg hx, Nat.zero_add]

/-- The keywords counted by rule 1 of the category matcher: extracted
keywords that are among the category's lowercased keywords. -/
def rule1Matches (keywords : List Str) (category : TaskCategory) : List Str :=
  keywords.filter fun kw => decide (kw ∈ category.keywords.map lowStr)

/-- The keywords accepted by rule 2 of the category matcher: the distinct
category keywords, skipping those already matched by rule 1, that
whole-word match the task. -/
def rule2Matches (nt : Str) (keywords : List Str) (category : TaskCategory) : List Str :=
  (dedupSeen (rule1Matches keywords category) (category.keywords.map lowStr)).filter
    fun k => hasWholeWord nt k

/-- The +15 name/id mention bonus of the category matcher. -/
def nameBonus (nt : Str) (category : TaskCategory) : Nat :=
  if hasWholeWord nt (lowStr category.name) || hasWholeWord nt (lowStr category.id)
  then 15 else 0

/-- Closed form of the `scoreCategory` loop. -/
theorem scoreCategory_eq (nt : Str) (keywords : List Str) (category : TaskCategory) :
    scoreCategory nt keywords category
      = (10 * (rule1Matches keywords category).length
          + 5 * (rule2Matches nt keywords category).length
          + nameBonus nt category,
         rule1Matches keywords category ++ rule2Matches nt keywords category) := by
  simp only [scoreCategory]
  rw [foldl_match_score]
  rw [foldl_rule2 (fun k => hasWholeWord nt k)]
  simp only [List.nil_append, Nat.zero_add, Prod.mk.injEq]
  constructor
  · simp only [rule1Matches, rule2Matches, nameBonus, List.countP_eq_length_filter]
  · simp only [rule1Matches, rule2Matches]

/-- The category score as §4.4 of the spec words it: +10 per extracted
keyword among the category's keywords, +5 per distinct category keyword
that whole-word matches the task and was not counted by the first rule,
+15 when the category name or id occurs in the task. -/
def specCategoryScore (nt : Str) (keywords : List Str) (category : TaskCategory) : Nat :=
  10 * (keywords.countP fun kw => decide (kw ∈ category.keywords.map lowStr))
  + 5 * ((dedupFirst (category.keywords.map lowStr)).countP fun k =>
      hasWholeWord nt k && !(includes (rule1Matches keywords category) k))
  + nameBonus nt category

/-- The code's category score agrees with the spec-side formula. -/
theorem scoreCategory_fst (nt : Str) (keywords : List Str) (category : TaskCategory) :
    (scoreCategory nt keywords category).1 = specCategoryScore nt keywords category := by
  rw [scoreCategory_eq]
  simp only [specCategoryScore, rule1Matches, rule2Matches]
  rw [List.countP_eq_length_filter (fun kw => decide (kw ∈ category.keywords.map lowStr))]
  rw [List.countP_eq_length_filter]
  rw [dedupSeen_filter_seed_str]

/-- Every extracted keyword is lowercased. -/
theorem keywords_lower (cats : List TaskCategory) (nt : Str) :
    ∀ kw ∈ extractKeywords cats nt, lowStr kw = kw := by
  intro kw h
  rw [extractKeywords, mem_dedupFirst] at h
  have h2 := (List.mem_filter.mp h).1
  rw [mem_dedupFirst, List.mem_flatMap] at h2
  obtain ⟨c, _, hc⟩ := h2
  obtain ⟨orig, _, rfl⟩ := List.mem_map.mp hc
  exact lowStr_idem orig

/-- Every whole-word-matching category keyword is extracted. -/
theorem extractKeywords_complete (cats : List TaskCategory) (nt : Str) (k : Str)
    (hk : k ∈ cats.flatMap fun c => c.keywords.map lowStr)
    (hw : hasWholeWord nt k = true) : k ∈ extractKeywords cats nt := by
  rw [extractKeywords, mem_dedupFirst]
  exact List.mem_filter.mpr ⟨(mem_dedupFirst k _).mpr hk, hw⟩

/-- Structure of every member of a `matchCategories` result. -/
theorem mem_matchCategories {cats : List TaskCategory} {nt : Str}
    {keywords : List Str} {cm : CategoryMatch}
    (h : cm ∈ matchCategories cats nt keywords) :
    cm.category ∈ cats ∧
    cm.matchedKeywords
      = rule1Matches keywords cm.category ++ rule2Matches nt keywords cm.category ∧
    cm.score = 10 * (rule1Matches keywords cm.category).length
      + 5 * (rule2Matches nt keywords cm.category).length
      + nameBonus nt cm.category := by
  simp only [matchCategories] at h
  rw [mem_stableSortDesc, List.mem_filterMap] at h
  obtain ⟨category, hcat, hsome⟩ := h
  simp only [scoreCategory_eq] at hsome
  split at hsome
  · injection hsome with h2
    subst h2
    exact ⟨hcat, rfl, rfl⟩
  · cases hsome

/-- C2: for every normalized task text and extracted keyword list, the
category matcher scores each category as +10 per extracted keyword among
the category's keywords, +5 per distinct category keyword that whole-word
matches the task but was not counted by the first rule (never counting a
keyword twice for a category), +15 when the category name or id occurs in
the task; it keeps the categories scoring at least 10, sorted descending
with original catalog order on equal scores (the stable sort groups). -/
theorem matchCategories_spec (cats : List TaskCategory) (nt : Str)
    (keywords : List Str) :
    matchCategories cats nt keywords
      = stableSortDesc (fun m => m.score)
          (cats.filterMap fun category =>
            if specCategoryScore nt keywords category ≥ 10 then
              some { category := category
                     score := specCategoryScore nt keywords category
                     matchedKeywords := rule1Matches keywords category
                       ++ rule2Matches nt keywords category }
            else none) ∧
    List.Pairwise (fun a b => b.score ≤ a.score)
      (matchCategories cats nt keywords) := by
  constructor
  · simp only [matchCategories, MIN_CATEGORY_SCORE]
    congr 1
    have hfun : (fun category =>
        if (scoreCategory nt keywords category).1 ≥ 10 then
          some { category := category, score := (scoreCategory nt keywords category).1,
                 matchedKeywords := (scoreCategory nt keywords category).2 }
        else none)
      = (fun category =>
        if specCategoryScore nt keywords category ≥ 10 then
          some { category := category, score := specCategoryScore nt keywords category,
                 matchedKeywords := rule1Matches keywords category
                   ++ rule2Matches nt keywords category }
        else (none : Option CategoryMatch)) := by
      funext category
      rw [scoreCategory_fst, scoreCategory_eq]
    exact congrArg (fun f => List.filterMap f cats) hfun
  · simp only [matchCategories]
    exact pairwise_stableSortDesc _ _

/-- C9: the quick analysis is the truncation of the full analysis: the
first up-to-10 keywords, the ids of the first up-to-3 categories in order,
and the same complexity. -/
theorem quickAnalyze_spec (cd : CategoriesData) (task : Str) :
    (quickAnalyze cd task).keywords = ((analyzeTask cd task).keywords).take 10 ∧
    (quickAnalyze cd task).topCategories
      = ((analyzeTask cd task).categories.take 3).map (fun c => c.category.id) ∧
    (quickAnalyze cd task).complexity = (analyzeTask cd task).complexity :=
  ⟨rfl, rfl, rfl⟩

/-- The complexity estimator as §4.6 of the spec words it: whole-word hit
counts weighted simple ×1, moderate ×1.5, complex ×2; complex wins ties
over moderate, moderate over simple. -/
def specComplexity (ind : ComplexityIndicators) (nt : Str) : Complexity :=
  let weightedSimple : ℚ := (ind.simple.countP fun w => hasWholeWord nt w) * 1
  let weightedModerate : ℚ := (ind.moderate.countP fun w => hasWholeWord nt w) * (3 / 2)
  let weightedComplex : ℚ := (ind.complex.countP fun w => hasWholeWord nt w) * 2
  if weightedComplex ≥ weightedModerate ∧ weightedComplex ≥ weightedSimple then .complex
  else if weightedModerate ≥ weightedSimple then .moderate
  else .simple

/-- C3 counterexample: with zero indicator hits in all three lists the
estimator returns complex (the tie rule fires: 0 ≥ 0 on both comparisons),
not simple as the claim states. -/
theorem determineComplexity_counterexample :
    countHits (("hello").toList) ([] : List Str) = 0 ∧
    determineComplexity ⟨[], [], []⟩ (("hello").toList) = Complexity.complex ∧
    determineComplexity ⟨[], [], []⟩ (("hello").toList) ≠ Complexity.simple := by
  have h : determineComplexity ⟨[], [], []⟩ (("hello").toList) = Complexity.complex := by
    rw [determineComplexity]
    norm_num [countHits, complexityDecision]
  exact ⟨rfl, h, by rw [h]; intro hc; cases hc⟩

/-- C3 (amended): the estimator counts whole-word hits weighted ×1, ×1.5,
×2 with the stated decision order; weighted scores (2, 2, 0) yield
moderate; a task with zero indicator hits in all three lists yields
complex (the tie rule routes the all-zero case to complex). -/
theorem determineComplexity_spec :
    (∀ ind nt, determineComplexity ind nt = specComplexity ind nt) ∧
    complexityDecision 2 2 0 = Complexity.moderate ∧
    (∀ ind nt, countHits nt ind.simple = 0 → countHits nt ind.moderate = 0 →
      countHits nt ind.complex = 0 →
      determineComplexity ind nt = Complexity.complex) := by
  refine ⟨?_, by rfl, ?_⟩
  · intro ind nt
    have h1 : ((countHits nt ind.simple : ℚ))
        = (ind.simple.countP fun w => hasWholeWord nt w) * 1 := by
      rw [countHits]; ring
    have h2 : ((3 : ℚ) / 2) * countHits nt ind.moderate
        = (ind.moderate.countP fun w => hasWholeWord nt w) * (3 / 2) := by
      rw [countHits]; ring
    have h3 : (2 : ℚ) * countHits nt ind.complex
        = (ind.complex.countP fun w => hasWholeWord nt w) * 2 := by
      rw [countHits]; ring
    rw [determineComplexity, h1, h2, h3]
    rfl
  · intro ind nt h1 h2 h3
    rw [determineComplexity, h1, h2, h3]
    norm_num [complexityDecision]

/-- C3 witness: a concrete zero-hit instance for the amended claim. -/
theorem determineComplexity_spec_witness :
    countHits (("quick fix").toList) ([] : List Str) = 0 ∧
    determineComplexity ⟨[], [], []⟩ (("quick fix").toList) = Complexity.complex :=
  ⟨rfl, determineComplexity_spec.2.2 ⟨[], [], []⟩ (("quick fix").toList) rfl rfl rfl⟩

/-- C10: in the composed pipeline the +5 fallback of the category matcher
never fires: every matched keyword of every category entry is one of the
extracted keywords, and the entry's score is 10 per matched keyword plus
the 0-or-15 name/id bonus. -/
theorem pipeline_rule2_never_fires (cd : CategoriesData) (task : Str)
    (cm : CategoryMatch) (h : cm ∈ (analyzeTask cd task).categories) :
    (∀ k ∈ cm.matchedKeywords, k ∈ (analyzeTask cd task).keywords) ∧
    cm.score = 10 * cm.matchedKeywords.length
      + nameBonus (normalizeTask task) cm.category := by
  have hmc : cm ∈ matchCategories cd.categories (normalizeTask task)
      (extractKeywords cd.categories (normalizeTask task)) := h
  obtain ⟨hcat, hmk, hsc⟩ := mem_matchCategories hmc
  have hrule2 : rule2Matches (normalizeTask task)
      (extractKeywords cd.categories (normalizeTask task)) cm.category = [] := by
    rw [rule2Matches, List.filter_eq_nil_iff]
    intro k hk hP
    have hk2 := (mem_dedupSeen k _ _).mp hk
    have hkw : k ∈ cd.categories.flatMap fun c => c.keywords.map lowStr :=
      List.mem_flatMap.mpr ⟨cm.category, hcat, hk2.1⟩
    have hext := extractKeywords_complete cd.categories (normalizeTask task) k hkw hP
    exact hk2.2 (List.mem_filter.mpr ⟨hext, decide_eq_true hk2.1⟩)
  constructor
  · intro k hkmem
    rw [hmk, hrule2, List.append_nil, rule1Matches] at hkmem
    exact (List.mem_filter.mp hkmem).1
  · rw [hsc, hmk, hrule2]
    simp

/-- C10 witness category. -/
def cat10 : TaskCategory :=
  { id := ("web").toList, name := ("frontend").toList
    keywords := [("react").toList] }

/-- C10 witness catalog. -/
def cd10 : CategoriesData :=
  { categories := [cat10], taskPatterns := []
    complexityIndicators := ⟨[], [], []⟩ }

/-- C10 witness: a concrete task producing a nonempty category match whose
matched keywords all come from the extracted keyword list. -/
theorem pipeline_rule2_witness :
    ({ category := cat10, score := 10, matchedKeywords := [("react").toList] }
        : CategoryMatch) ∈ (analyzeTask cd10 (("react app").toList)).categories ∧
    ∀ k ∈ [("react").toList], k ∈ (analyzeTask cd10 (("react app").toList)).keywords := by
  have h := pipeline_rule2_never_fires cd10 (("react app").toList)
    { category := cat10, score := 10, matchedKeywords := [("react").toList] }
    (by decide)
  exact ⟨by decide, h.1⟩

/-- C4: a keyword that never occurs delimited by word boundaries in the
normalized task (in particular one occurring only inside a longer word) is
rejected by the whole-word matcher, is not extracted, and appears in no
category entry's matched keywords. -/
theorem wholeWord_invariant (cd : CategoriesData) (task kw : Str)
    (h : ∀ i ≤ (normalizeTask task).length,
      ¬(matchAt (normalizeTask task) (lowStr kw) i = true ∧
        boundaryAt (normalizeTask task) i = true ∧
        boundaryAt (normalizeTask task) (i + (lowStr kw).length) = true)) :
    hasWholeWord (normalizeTask task) (lowStr kw) = false ∧
    lowStr kw ∉ (analyzeTask cd task).keywords ∧
    ∀ cm ∈ (analyzeTask cd task).categories, lowStr kw ∉ cm.matchedKeywords := by
  have hfalse : hasWholeWord (normalizeTask task) (lowStr kw) = false := by
    rw [hasWholeWord]
    refine List.any_eq_false.mpr fun i hi => ?_
    intro hcond
    have hile : i ≤ (normalizeTask task).length := by
      have := List.mem_range.mp hi; omega
    simp only [Bool.and_eq_true] at hcond
    exact h i hile ⟨hcond.1.1, hcond.1.2, hcond.2⟩
  have hnotin : lowStr kw ∉ (analyzeTask cd task).keywords := by
    intro hmem
    have hmem2 : lowStr kw ∈ extractKeywords cd.categories (normalizeTask task) := hmem
    rw [extractKeywords, mem_dedupFirst] at hmem2
    have := (List.mem_filter.mp hmem2).2
    rw [hfalse] at this
    exact Bool.false_ne_true this
  refine ⟨hfalse, hnotin, ?_⟩
  intro cm hcm
  have hmc : cm ∈ matchCategories cd.categories (normalizeTask task)
      (extractKeywords cd.categories (normalizeTask task)) := hcm
  obtain ⟨_, hmk, _⟩ := mem_matchCategories hmc
  rw [hmk]
  intro hmem
  rcases List.mem_append.mp hmem with h1 | h2
  · exact hnotin (List.mem_filter.mp h1).1
  · have := (List.mem_filter.mp h2).2
    rw [hfalse] at this
    exact Bool.false_ne_true this

/-- C4 witness category. -/
def cat4 : TaskCategory :=
  { id := ("backend").toList, name := ("Backend").toList
    keywords := [("api").toList] }

/-- C4 witness catalog. -/
def cd4 : CategoriesData :=
  { categories := [cat4], taskPatterns := []
    complexityIndicators := ⟨[], [], []⟩ }

/-- C4 witness: "api" occurs in "rapid development" only inside "rapid",
so it is neither whole-word matched nor extracted. -/
theorem wholeWord_invariant_witness :
    hasWholeWord (normalizeTask (("rapid development").toList))
      (lowStr (("api").toList)) = false ∧
    lowStr (("api").toList)
      ∉ (analyzeTask cd4 (("rapid development").toList)).keywords := by
  have h := wholeWord_invariant cd4 (("rapid development").toList)
    (("api").toList) (by decide)
  exact ⟨h.1, h.2.1⟩

/-- Every member of a `recommendFeatureType` list passes the score
threshold and carries the priority flag tied to the 40 threshold. -/
theorem mem_recommendFeatureType {fd : FeaturesData} {ty : FeatureType}
    {a : AnalysisResult} {maxResults : Nat} {sf : ScoredFeature}
    (h : sf ∈ recommendFeatureType fd ty a maxResults) :
    sf.score ≥ MIN_FEATURE_SCORE ∧
    sf.isPriority = decide (sf.score ≥ MIN_PRIORITY_SCORE) := by
  simp only [recommendFeatureType] at h
  have h2 := List.Sublist.mem h (List.take_sublist _ _)
  rw [mem_stableSortDesc, List.mem_filterMap] at h2
  obtain ⟨feature, _, hsome⟩ := h2
  split at hsome
  · injection hsome with h3
    subst h3
    constructor
    · assumption
    · rfl
  · cases hsome

/-- Every member of the concatenation comes from one of the seven calls. -/
theorem mem_allRecommendations {fd : FeaturesData} {a : AnalysisResult} {sf : ScoredFeature}
    (h : sf ∈ allRecommendations fd a) : ∃ ty, sf ∈ recommendFeatureType fd ty a 5 := by
  simp only [allRecommendations, List.mem_append] at h
  rcases h with ((((((h | h) | h) | h) | h) | h) | h)
  · exact ⟨.skill, h⟩
  · exact ⟨.agent, h⟩
  · exact ⟨.mcp, h⟩
  · exact ⟨.hook, h⟩
  · exact ⟨.command, h⟩
  · exact ⟨.setting, h⟩
  · exact ⟨.claudemd, h⟩

/-- The per-type arrays of `generateRecommendations` are the
`recommendFeatureType` lists. -/
theorem generate_skills (fd : FeaturesData) (a : AnalysisResult) :
    (generateRecommendations fd a).skills = recommendFeatureType fd .skill a 5 := rfl

/-- The agents array of `generateRecommendations`. -/
theorem generate_agents (fd : FeaturesData) (a : AnalysisResult) :
    (generateRecommendations fd a).agents = recommendFeatureType fd .agent a 5 := rfl

/-- The mcps array of `generateRecommendations`. -/
theorem generate_mcps (fd : FeaturesData) (a : AnalysisResult) :
    (generateRecommendations fd a).mcps = recommendFeatureType fd .mcp a 5 := rfl

/-- The hooks array of `generateRecommendations`. -/
theorem generate_hooks (fd : FeaturesData) (a : AnalysisResult) :
    (generateRecommendations fd a).hooks = recommendFeatureType fd .hook a 5 := rfl

/-- The commands array of `generateRecommendations`. -/
theorem generate_commands (fd : FeaturesData) (a : AnalysisResult) :
    (generateRecommendations fd a).commands = recommendFeatureType fd .command a 5 := rfl

/-- The settings array of `generateRecommendations`. -/
theorem generate_settings (fd : FeaturesData) (a : AnalysisResult) :
    (generateRecommendations fd a).settings = recommendFeatureType fd .setting a 5 := rfl

/-- The claudemd array of `generateRecommendations`. -/
theorem generate_claudemd (fd : FeaturesData) (a : AnalysisResult) :
    (generateRecommendations fd a).claudemd = recommendFeatureType fd .claudemd a 5 := rfl

/-- The topPriority list of `generateRecommendations`. -/
theorem generate_topPriority (fd : FeaturesData) (a : AnalysisResult) :
    (generateRecommendations fd a).topPriority = topPriorityList fd a := by
  dsimp only [generateRecommendations]

/-- The quickWins list of `generateRecommendations`. -/
theorem generate_quickWins (fd : FeaturesData) (a : AnalysisResult) :
    (generateRecommendations fd a).quickWins = quickWinsList fd a := by
  dsimp only [generateRecommendations]

/-- The recommendation count of `generateRecommendations`. -/
theorem generate_total (fd : FeaturesData) (a : AnalysisResult) :
    (generateRecommendations fd a).totalRecommendations
      = (allRecommendations fd a).length := rfl

/-- The echoed keyword list of `generateRecommendations`. -/
theorem generate_detectedKeywords (fd : FeaturesData) (a : AnalysisResult) :
    (generateRecommendations fd a).analysisDetectedKeywords = a.keywords.take 10 := rfl

/-- The echoed category names of `generateRecommendations`. -/
theorem generate_topCategories (fd : FeaturesData) (a : AnalysisResult) :
    (generateRecommendations fd a).analysisTopCategories
      = (a.categories.take 3).map (fun c => c.category.name) := rfl

/-- C5: every scored feature in any of the seven per-type arrays, in
topPriority or in quickWins has score at least 15, and its priority flag
holds exactly when the score reaches 40. -/
theorem thresholds_invariant (fd : FeaturesData) (a : AnalysisResult)
    (sf : ScoredFeature)
    (h : sf ∈ (generateRecommendations fd a).skills ∨
         sf ∈ (generateRecommendations fd a).agents ∨
         sf ∈ (generateRecommendations fd a).mcps ∨
         sf ∈ (generateRecommendations fd a).hooks ∨
         sf ∈ (generateRecommendations fd a).commands ∨
         sf ∈ (generateRecommendations fd a).settings ∨
         sf ∈ (generateRecommendations fd a).claudemd ∨
         sf ∈ (generateRecommendations fd a).topPriority ∨
         sf ∈ (generateRecommendations fd a).quickWins) :
    sf.score ≥ MIN_FEATURE_SCORE ∧
    (sf.isPriority = true ↔ sf.score ≥ MIN_PRIORITY_SCORE) := by
  have conclude : ∀ ty, sf ∈ recommendFeatureType fd ty a 5 →
      sf.score ≥ MIN_FEATURE_SCORE ∧
      (sf.isPriority = true ↔ sf.score ≥ MIN_PRIORITY_SCORE) := by
    intro ty hmem
    obtain ⟨h1, h2⟩ := mem_recommendFeatureType hmem
    refine ⟨h1, ?_⟩
    rw [h2]
    exact decide_eq_true_iff
  have fromTop : sf ∈ topPriorityList fd a →
      ∃ ty, sf ∈ recommendFeatureType fd ty a 5 := by
    intro hmem
    simp only [topPriorityList] at hmem
    have h2 := List.Sublist.mem hmem (List.take_sublist _ _)
    rw [mem_stableSortDesc] at h2
    exact mem_allRecommendations (List.mem_filter.mp h2).1
  have fromQuick : sf ∈ quickWinsList fd a →
      ∃ ty, sf ∈ recommendFeatureType fd ty a 5 := by
    intro hmem
    simp only [quickWinsList] at hmem
    have h2 := List.Sublist.mem hmem (List.take_sublist _ _)
    rw [mem_stableSortDesc] at h2
    exact mem_allRecommendations (List.mem_filter.mp h2).1
  rw [generate_skills, generate_agents, generate_mcps, generate_hooks,
    generate_commands, generate_settings, generate_claudemd,
    generate_topPriority, generate_quickWins] at h
  rcases h with h | h | h | h | h | h | h | h | h
  · exact conclude .skill h
  · exact conclude .agent h
  · exact conclude .mcp h
  · exact conclude .hook h
  · exact conclude .command h
  · exact conclude .setting h
  · exact conclude .claudemd h
  · obtain ⟨ty, hmem⟩ := fromTop h
    exact conclude ty hmem
  · obtain ⟨ty, hmem⟩ := fromQuick h
    exact conclude ty hmem

/-- C5 witness feature. -/
def feat5 : Feature := { id := ("s1").toList, keywords := [("react").toList] }

/-- C5 witness feature catalog. -/
def fd5 : FeaturesData := { skills := [feat5] }

/-- C5 witness analysis. -/
def a5 : AnalysisResult :=
  { originalTask := ("react").toList, normalizedTask := ("react").toList
    keywords := [("react").toList], categories := [], patterns := []
    complexity := .simple, boostFeatureTypes := [], priorityAgents := [] }

/-- C5 witness: a concrete recommendation member with score 25 satisfying
both threshold facts. -/
theorem thresholds_witness :
    ((⟨feat5, .skill, 25, [.matchesKeyword (("react").toList)], false⟩ : ScoredFeature)
        ∈ (generateRecommendations fd5 a5).skills) ∧
    (25 : Nat) ≥ MIN_FEATURE_SCORE ∧
    ((false = true) ↔ (25 : Nat) ≥ MIN_PRIORITY_SCORE) := by
  have hmem : (⟨feat5, .skill, 25, [.matchesKeyword (("react").toList)], false⟩
      : ScoredFeature) ∈ (generateRecommendations fd5 a5).skills := by decide
  have h := thresholds_invariant fd5 a5 _ (Or.inl hmem)
  exact ⟨hmem, h.1, h.2⟩

/-- Each per-type recommendation list is truncated to `maxResults`. -/
theorem recommendFeatureType_length_le (fd : FeaturesData) (ty : FeatureType)
    (a : AnalysisResult) (n : Nat) : (recommendFeatureType fd ty a n).length ≤ n := by
  simp only [recommendFeatureType]
  exact List.length_take_le _ _

/-- Each per-type recommendation list is sorted by score descending. -/
theorem recommendFeatureType_sorted (fd : FeaturesData) (ty : FeatureType)
    (a : AnalysisResult) (n : Nat) :
    List.Pairwise (fun x y => y.score ≤ x.score) (recommendFeatureType fd ty a n) := by
  simp only [recommendFeatureType]
  exact List.Pairwise.sublist (List.take_sublist _ _) (pairwise_stableSortDesc _ _)

/-- C6: the seven per-type arrays have length at most 5 and are sorted
descending by score; topPriority has at most 5 entries, quickWins at most
3, detectedKeywords at most 10 and topCategories at most 3. -/
theorem truncation_invariant (fd : FeaturesData) (a : AnalysisResult) :
    ((generateRecommendations fd a).skills.length ≤ 5 ∧
     (generateRecommendations fd a).agents.length ≤ 5 ∧
     (generateRecommendations fd a).mcps.length ≤ 5 ∧
     (generateRecommendations fd a).hooks.length ≤ 5 ∧
     (generateRecommendations fd a).commands.length ≤ 5 ∧
     (generateRecommendations fd a).settings.length ≤ 5 ∧
     (generateRecommendations fd a).claudemd.length ≤ 5) ∧
    (List.Pairwise (fun x y => y.score ≤ x.score) (generateRecommendations fd a).skills ∧
     List.Pairwise (fun x y => y.score ≤ x.score) (generateRecommendations fd a).agents ∧
     List.Pairwise (fun x y => y.score ≤ x.score) (generateRecommendations fd a).mcps ∧
     List.Pairwise (fun x y => y.score ≤ x.score) (generateRecommendations fd a).hooks ∧
     List.Pairwise (fun x y => y.score ≤ x.score) (generateRecommendations fd a).commands ∧
     List.Pairwise (fun x y => y.score ≤ x.score) (generateRecommendations fd a).settings ∧
     List.Pairwise (fun x y => y.score ≤ x.score) (generateRecommendations fd a).claudemd) ∧
    (generateRecommendations fd a).topPriority.length ≤ 5 ∧
    (generateRecommendations fd a).quickWins.length ≤ 3 ∧
    (generateRecommendations fd a).analysisDetectedKeywords.length ≤ 10 ∧
    (generateRecommendations fd a).analysisTopCategories.length ≤ 3 := by
  rw [generate_skills, generate_agents, generate_mcps, generate_hooks,
    generate_commands, generate_settings, generate_claudemd,
    generate_topPriority, generate_quickWins, generate_detectedKeywords,
    generate_topCategories]
  refine ⟨⟨?_, ?_, ?_, ?_, ?_, ?_, ?_⟩, ⟨?_, ?_, ?_, ?_, ?_, ?_, ?_⟩, ?_, ?_, ?_, ?_⟩
  · exact recommendFeatureType_length_le fd .skill a 5
  · exact recommendFeatureType_length_le fd .agent a 5
  · exact recommendFeatureType_length_le fd .mcp a 5
  · exact recommendFeatureType_length_le fd .hook a 5
  · exact recommendFeatureType_length_le fd .command a 5
  · exact recommendFeatureType_length_le fd .setting a 5
  · exact recommendFeatureType_length_le fd .claudemd a 5
  · exact recommendFeatureType_sorted fd .skill a 5
  · exact recommendFeatureType_sorted fd .agent a 5
  · exact recommendFeatureType_sorted fd .mcp a 5
  · exact recommendFeatureType_sorted fd .hook a 5
  · exact recommendFeatureType_sorted fd .command a 5
  · exact recommendFeatureType_sorted fd .setting a 5
  · exact recommendFeatureType_sorted fd .claudemd a 5
  · simp only [topPriorityList]
    exact List.length_take_le _ _
  · simp only [quickWinsList]
    exact List.length_take_le _ _
  · exact List.length_take_le _ _
  · rw [List.length_map]
    exact List.length_take_le _ _

/-- A fold whose step never changes the accumulator returns its seed. -/
theorem foldl_id {f : β → α → β} :
    ∀ (l : List α) (init : β), (∀ b, ∀ x ∈ l, f b x = b) → l.foldl f init = init := by
  intro l
  induction l with
  | nil => intro init _; rfl
  | cons x xs ih =>
    intro init h
    rw [List.foldl_cons, h init x (List.mem_cons_self x xs)]
    exact ih init fun b y hy => h b y (List.mem_cons_of_mem x hy)

/-- The keyword field of the analysis. -/
theorem analyzeTask_keywords (cd : CategoriesData) (task : Str) :
    (analyzeTask cd task).keywords
      = extractKeywords cd.categories (normalizeTask task) := rfl

/-- The category field of the analysis. -/
theorem analyzeTask_categories (cd : CategoriesData) (task : Str) :
    (analyzeTask cd task).categories
      = matchCategories cd.categories (normalizeTask task)
          (extractKeywords cd.categories (normalizeTask task)) := rfl

/-- The boost field of the analysis. -/
theorem analyzeTask_boost (cd : CategoriesData) (task : Str) :
    (analyzeTask cd task).boostFeatureTypes
      = dedupFirst ((detectPatterns cd.taskPatterns (normalizeTask task)).flatMap
          fun p => p.boost) := rfl

/-- The priority-agent field of the analysis. -/
theorem analyzeTask_priorityAgents (cd : CategoriesData) (task : Str) :
    (analyzeTask cd task).priorityAgents
      = dedupFirst ((detectPatterns cd.taskPatterns (normalizeTask task)).flatMap
          fun p => p.priorityAgents) := rfl

/-- The normalized-task field of the analysis. -/
theorem analyzeTask_normalized (cd : CategoriesData) (task : Str) :
    (analyzeTask cd task).normalizedTask = normalizeTask task := rfl

/-- C7: a task of at least 3 characters in which no category keyword,
category name or id, pattern alternative, complexity indicator or feature
keyword occurs as a whole word yields the well-formed degenerate result:
no keywords, no categories, seven empty recommendation arrays and zero
total recommendations (and, being a total function, no exception). -/
theorem degenerate_task (cd : CategoriesData) (fd : FeaturesData) (task : Str)
    (hlen : 3 ≤ task.length)
    (hcatkw : ∀ c ∈ cd.categories, ∀ kw ∈ c.keywords,
      hasWholeWord (normalizeTask task) (lowStr kw) = false)
    (hname : ∀ c ∈ cd.categories,
      hasWholeWord (normalizeTask task) (lowStr c.name) = false ∧
      hasWholeWord (normalizeTask task) (lowStr c.id) = false)
    (hpat : ∀ p ∈ cd.taskPatterns, ∀ alt ∈ p.pattern,
      hasWholeWord (normalizeTask task) alt = false)
    (hind : ∀ w ∈ cd.complexityIndicators.simple ++ cd.complexityIndicators.moderate
        ++ cd.complexityIndicators.complex,
      hasWholeWord (normalizeTask task) w = false)
    (hfeat : ∀ f ∈ fd.skills ++ fd.agents ++ fd.mcps ++ fd.hooks ++ fd.commands
        ++ fd.settings ++ fd.claudemd, ∀ kw ∈ f.keywords,
      hasWholeWord (normalizeTask task) (lowStr kw) = false) :
    (analyzeTask cd task).keywords = [] ∧
    (analyzeTask cd task).categories = [] ∧
    (generateRecommendations fd (analyzeTask cd task)).skills = [] ∧
    (generateRecommendations fd (analyzeTask cd task)).agents = [] ∧
    (generateRecommendations fd (analyzeTask cd task)).mcps = [] ∧
    (generateRecommendations fd (analyzeTask cd task)).hooks = [] ∧
    (generateRecommendations fd (analyzeTask cd task)).commands = [] ∧
    (generateRecommendations fd (analyzeTask cd task)).settings = [] ∧
    (generateRecommendations fd (analyzeTask cd task)).claudemd = [] ∧
    (generateRecommendations fd (analyzeTask cd task)).totalRecommendations = 0 := by
  have hkw0 : extractKeywords cd.categories (normalizeTask task) = [] := by
    simp only [extractKeywords]
    have hfil : (dedupFirst (cd.categories.flatMap fun c => c.keywords.map lowStr)).filter
        (fun kw => hasWholeWord (normalizeTask task) kw) = [] := by
      rw [List.filter_eq_nil_iff]
      intro kw hkw hP
      rw [mem_dedupFirst, List.mem_flatMap] at hkw
      obtain ⟨c, hc, hkc⟩ := hkw
      obtain ⟨orig, ho, rfl⟩ := List.mem_map.mp hkc
      rw [hcatkw c hc orig ho] at hP
      cases hP
    rw [hfil]
    rfl
  have haK : (analyzeTask cd task).keywords = [] := by
    rw [analyzeTask_keywords, hkw0]
  have haC : (analyzeTask cd task).categories = [] := by
    rw [analyzeTask_categories, hkw0]
    simp only [matchCategories]
    have hfm : cd.categories.filterMap (fun category =>
        if (scoreCategory (normalizeTask task) [] category).1 ≥ MIN_CATEGORY_SCORE then
          some ({ category := category,
                  score := (scoreCategory (normalizeTask task) [] category).1,
                  matchedKeywords := (scoreCategory (normalizeTask task) [] category).2 }
            : CategoryMatch)
        else none) = [] := by
      rw [List.filterMap_eq_nil_iff]
      intro category hcat
      have hr1 : rule1Matches [] category = [] := rfl
      have hr2 : rule2Matches (normalizeTask task) [] category = [] := by
        rw [rule2Matches, List.filter_eq_nil_iff]
        intro k hk hP
        have hk2 := ((mem_dedupSeen k _ _).mp hk).1
        obtain ⟨orig, ho, rfl⟩ := List.mem_map.mp hk2
        rw [hcatkw category hcat orig ho] at hP
        cases hP
      have hb : nameBonus (normalizeTask task) category = 0 := by
        rw [nameBonus, if_neg]
        rw [(hname category hcat).1, (hname category hcat).2]
        simp
      rw [if_neg]
      have heq : (scoreCategory (normalizeTask task) [] category).1
          = 10 * (rule1Matches [] category).length
            + 5 * (rule2Matches (normalizeTask task) [] category).length
            + nameBonus (normalizeTask task) category := by
        rw [scoreCategory_eq]
      rw [heq, hr1, hr2, hb]
      simp [MIN_CATEGORY_SCORE]
    rw [hfm]
    rfl
  have haB : (analyzeTask cd task).boostFeatureTypes = [] := by
    rw [analyzeTask_boost]
    have hp0 : detectPatterns cd.taskPatterns (normalizeTask task) = [] := by
      rw [detectPatterns, List.filter_eq_nil_iff]
      intro p hp hP
      rw [List.any_eq_true] at hP
      obtain ⟨alt, halt, hw⟩ := hP
      rw [hpat p hp alt halt] at hw
      cases hw
    rw [hp0]
    rfl
  have haP : (analyzeTask cd task).priorityAgents = [] := by
    rw [analyzeTask_priorityAgents]
    have hp0 : detectPatterns cd.taskPatterns (normalizeTask task) = [] := by
      rw [detectPatterns, List.filter_eq_nil_iff]
      intro p hp hP
      rw [List.any_eq_true] at hP
      obtain ⟨alt, halt, hw⟩ := hP
      rw [hpat p hp alt halt] at hw
      cases hw
    rw [hp0]
    rfl
  have hsf : ∀ (ty : FeatureType) (f : Feature),
      (∀ kw ∈ f.keywords, hasWholeWord (normalizeTask task) (lowStr kw) = false) →
      scoreFeature f ty (analyzeTask cd task) = (0, []) := by
    intro ty f hkwf
    simp only [scoreFeature, haK, haC, haB, haP, analyzeTask_normalized,
      List.enum_nil, List.foldl_nil, List.not_mem_nil, decide_False,
      Bool.or_self, Bool.false_eq_true, if_false]
    refine foldl_id _ _ ?_
    intro b x hx
    obtain ⟨orig, ho, rfl⟩ := List.mem_map.mp hx
    rw [hkwf orig ho]
    simp
  have hrec : ∀ ty : FeatureType,
      (∀ f ∈ getFeaturesByType fd ty, ∀ kw ∈ f.keywords,
        hasWholeWord (normalizeTask task) (lowStr kw) = false) →
      recommendFeatureType fd ty (analyzeTask cd task) 5 = [] := by
    intro ty hf
    simp only [recommendFeatureType]
    have hfm : (getFeaturesByType fd ty).filterMap (fun feature =>
        if (scoreFeature feature ty (analyzeTask cd task)).1 ≥ MIN_FEATURE_SCORE then
          some ({ feature := feature, type := ty,
                  score := (scoreFeature feature ty (analyzeTask cd task)).1,
                  matchReasons := (scoreFeature feature ty (analyzeTask cd task)).2,
                  isPriority := decide ((scoreFeature feature ty (analyzeTask cd task)).1
                    ≥ MIN_PRIORITY_SCORE) } : ScoredFeature)
        else none) = [] := by
      rw [List.filterMap_eq_nil_iff]
      intro f hfm2
      rw [if_neg]
      rw [hsf ty f (hf f hfm2)]
      simp [MIN_FEATURE_SCORE]
    rw [hfm]
    rfl
  have hmem : ∀ ty : FeatureType, ∀ f ∈ getFeaturesByType fd ty,
      f ∈ fd.skills ++ fd.agents ++ fd.mcps ++ fd.hooks ++ fd.commands
        ++ fd.settings ++ fd.claudemd := by
    intro ty f hf
    cases ty <;> simp only [getFeaturesByType] at hf <;>
      simp only [List.mem_append] <;> tauto
  have h7 : ∀ ty : FeatureType, recommendFeatureType fd ty (analyzeTask cd task) 5 = [] :=
    fun ty => hrec ty fun f hf => hfeat f (hmem ty f hf)
  refine ⟨haK, haC, ?_, ?_, ?_, ?_, ?_, ?_, ?_, ?_⟩
  · rw [generate_skills]; exact h7 .skill
  · rw [generate_agents]; exact h7 .agent
  · rw [generate_mcps]; exact h7 .mcp
  · rw [generate_hooks]; exact h7 .hook
  · rw [generate_commands]; exact h7 .command
  · rw [generate_settings]; exact h7 .setting
  · rw [generate_claudemd]; exact h7 .claudemd
  · rw [generate_total, allRecommendations,
      h7 .skill, h7 .agent, h7 .mcp, h7 .hook, h7 .command, h7 .setting, h7 .claudemd]
    rfl

/-- C7 witness catalog of categories, patterns and indicators. -/
def cd7 : CategoriesData :=
  { categories := [{ id := ("web").toList, name := ("frontend").toList
                     keywords := [("react").toList, ("dashboard").toList] }]
    taskPatterns := [{ pattern := [("build").toList, ("create").toList]
                       boost := [("agents").toList]
                       priorityAgents := [("react-specialist").toList] }]
    complexityIndicators := ⟨[("quick").toList], [("integrate").toList],
      [("architecture").toList]⟩ }

/-- C7 witness feature catalog. -/
def fd7 : FeaturesData :=
  { skills := [{ id := ("s1").toList, keywords := [("react").toList] }]
    agents := [{ id := ("react-specialist").toList, keywords := [("react").toList] }] }

/-- C7 witness: the spec's example task matches nothing in the witness
catalogs and produces the degenerate result. -/
theorem degenerate_witness :
    (analyzeTask cd7 (("xyz completely unrelated gibberish qqq").toList)).keywords = [] ∧
    (analyzeTask cd7 (("xyz completely unrelated gibberish qqq").toList)).categories = [] ∧
    (generateRecommendations fd7
      (analyzeTask cd7 (("xyz completely unrelated gibberish qqq").toList))).skills = [] ∧
    (generateRecommendations fd7
      (analyzeTask cd7 (("xyz completely unrelated gibberish qqq").toList))).agents = [] ∧
    (generateRecommendations fd7
      (analyzeTask cd7
        (("xyz completely unrelated gibberish qqq").toList))).totalRecommendations = 0 := by
  have h := degenerate_task cd7 fd7 (("xyz completely unrelated gibberish qqq").toList)
    (by decide) (by decide) (by decide) (by decide) (by decide) (by decide)
  exact ⟨h.1, h.2.1, h.2.2.1, h.2.2.2.1, h.2.2.2.2.2.2.2.2.2⟩

/-- Signal 1 of §4.8 as the claim words it: +25 per extracted task keyword
equal, case-insensitively, to one of the feature's keywords. -/
def specSignal1 (feature : Feature) (analysis : AnalysisResult) : Nat :=
  25 * (analysis.keywords.countP fun kw =>
    decide (lowStr kw ∈ feature.keywords.map lowStr))

/-- Signal 2: for each matched category listing the feature id among its
defaults for this type, +20 when it is the top-ranked match, +10 otherwise. -/
def specSignal2 (feature : Feature) (ty : FeatureType)
    (analysis : AnalysisResult) : Nat :=
  (analysis.categories.enum.map fun p =>
    if decide (feature.id ∈ p.2.category.defaultFeatures.forType ty) then
      (if p.1 = 0 then 20 else 10)
    else 0).sum

/-- Signal 3 as the claim words it: +10 only when the pluralized type name
is among the boosted feature types. -/
def specSignal3Written (ty : FeatureType) (analysis : AnalysisResult) : Nat :=
  if decide (ty.plural ∈ analysis.boostFeatureTypes) then 10 else 0

/-- Signal 3 as the code implements it: the bare type name also fires the
boost (recommendationService.ts:133). -/
def specSignal3 (ty : FeatureType) (analysis : AnalysisResult) : Nat :=
  if decide (ty.plural ∈ analysis.boostFeatureTypes) ||
     decide (ty.bare ∈ analysis.boostFeatureTypes) then 10 else 0

/-- Signal 4: +30 when the feature id is a priority agent. -/
def specSignal4 (feature : Feature) (analysis : AnalysisResult) : Nat :=
  if decide (feature.id ∈ analysis.priorityAgents) then 30 else 0

/-- Signal 5: +10 per feature keyword of length at least 3 that whole-word
matches the normalized task and was not already counted by signal 1, i.e.
no extracted keyword equals it case-insensitively. -/
def specSignal5 (feature : Feature) (analysis : AnalysisResult) : Nat :=
  10 * ((feature.keywords.map lowStr).countP fun k =>
    decide (k.length ≥ 3) && hasWholeWord analysis.normalizedTask k &&
    !(analysis.keywords.any fun kw => decide (lowStr kw = k)))

/-- The claim's score as written: the five-signal sum with signal 3 firing
only on the pluralized type name. -/
def specScoreWritten (feature : Feature) (ty : FeatureType)
    (analysis : AnalysisResult) : Nat :=
  specSignal1 feature analysis + specSignal2 feature ty analysis
    + specSignal3Written ty analysis + specSignal4 feature analysis
    + specSignal5 feature analysis

/-- The amended score: signal 3 fires on the pluralized or the bare name. -/
def specScore (feature : Feature) (ty : FeatureType)
    (analysis : AnalysisResult) : Nat :=
  specSignal1 feature analysis + specSignal2 feature ty analysis
    + specSignal3 ty analysis + specSignal4 feature analysis
    + specSignal5 feature analysis

/-- One reason per signal firing, in signal order. -/
def specReasons (feature : Feature) (ty : FeatureType)
    (analysis : AnalysisResult) : List Reason :=
  (analysis.keywords.filter fun kw =>
      decide (lowStr kw ∈ feature.keywords.map lowStr)).map Reason.matchesKeyword
  ++ (analysis.categories.enum.filter fun p =>
      decide (feature.id ∈ p.2.category.defaultFeatures.forType ty)).map
        (fun p => Reason.recommendedFor p.2.category.name)
  ++ (if decide (ty.plural ∈ analysis.boostFeatureTypes) ||
        decide (ty.bare ∈ analysis.boostFeatureTypes)
      then [Reason.matchesPattern] else [])
  ++ (if decide (feature.id ∈ analysis.priorityAgents)
      then [Reason.priorityForTask] else [])
  ++ ((feature.keywords.map lowStr).filter fun k =>
      decide (k.length ≥ 3) && hasWholeWord analysis.normalizedTask k &&
      !(analysis.keywords.any fun kw => decide (lowStr kw = k))).map
        Reason.taskMentions

/-- Signal 1 loop in closed form. -/
theorem signal1_fold (feature : Feature) (keys : List Str) (n : Nat) (rs : List Reason) :
    keys.foldl (fun acc keyword =>
        if decide (lowStr keyword ∈ feature.keywords.map lowStr) then
          (acc.1 + 25, acc.2 ++ [Reason.matchesKeyword keyword])
        else acc) (n, rs)
      = (n + 25 * (keys.countP fun kw => decide (lowStr kw ∈ feature.keywords.map lowStr)),
         rs ++ (keys.filter fun kw =>
           decide (lowStr kw ∈ feature.keywords.map lowStr)).map Reason.matchesKeyword) := by
  refine Eq.trans (foldl_bonus_reasons
    (fun keyword => decide (lowStr keyword ∈ feature.keywords.map lowStr))
    (fun _ => 25) Reason.matchesKeyword keys n rs) ?_
  rw [sum_map_const_filter]

/-- Signal 2 loop in closed form. -/
theorem signal2_fold (feature : Feature) (ty : FeatureType)
    (cats : List (Nat × CategoryMatch)) (n : Nat) (rs : List Reason) :
    cats.foldl (fun acc p =>
        if decide (feature.id ∈ p.2.category.defaultFeatures.forType ty) then
          (acc.1 + (if p.1 = 0 then 20 else 10),
           acc.2 ++ [Reason.recommendedFor p.2.category.name])
        else acc) (n, rs)
      = (n + (cats.map fun p =>
            if decide (feature.id ∈ p.2.category.defaultFeatures.forType ty) then
              (if p.1 = 0 then 20 else 10)
            else 0).sum,
         rs ++ (cats.filter fun p =>
             decide (feature.id ∈ p.2.category.defaultFeatures.forType ty)).map
           (fun p => Reason.recommendedFor p.2.category.name)) := by
  refine Eq.trans (foldl_bonus_reasons
    (fun p => decide (feature.id ∈ p.2.category.defaultFeatures.forType ty))
    (fun p => if p.1 = 0 then 20 else 10)
    (fun p => Reason.recommendedFor p.2.category.name) cats n rs) ?_
  rw [sum_filter_map]

/-- Signal 5 loop (in its one-test form) in closed form. -/
theorem signal5_fold (nt : Str) (keys : List Str) (fkeys : List Str)
    (n : Nat) (rs : List Reason) :
    fkeys.foldl (fun acc keyword =>
        if (decide (keyword.length ≥ 3) && hasWholeWord nt keyword) &&
            !(decide (keyword ∈ keys)) then
          (acc.1 + 10, acc.2 ++ [Reason.taskMentions keyword])
        else acc) (n, rs)
      = (n + 10 * (fkeys.countP fun k =>
            (decide (k.length ≥ 3) && hasWholeWord nt k) && !(decide (k ∈ keys))),
         rs ++ (fkeys.filter fun k =>
             (decide (k.length ≥ 3) && hasWholeWord nt k) && !(decide (k ∈ keys))).map
           Reason.taskMentions) := by
  refine Eq.trans (foldl_bonus_reasons
    (fun keyword => (decide (keyword.length ≥ 3) && hasWholeWord nt keyword) &&
      !(decide (keyword ∈ keys)))
    (fun _ => 10) Reason.taskMentions fkeys n rs) ?_
  rw [sum_map_const_filter]

/-- C1 counterexample catalog: one pattern boosting the bare type name. -/
def cd1 : CategoriesData :=
  { categories := []
    taskPatterns := [{ pattern := [("build").toList], boost := [("agent").toList] }]
    complexityIndicators := ⟨[], [], []⟩ }

/-- C1 counterexample feature. -/
def f1 : Feature := { id := ("a1").toList, keywords := [] }

/-- C1 counterexample: on the analysis of "build", whose matched pattern
boosts the bare name "agent", the scorer returns 10 while the claim's
five-signal sum (signal 3 firing only on the pluralized "agents") is 0. -/
theorem scoreFeature_counterexample :
    (scoreFeature f1 .agent (analyzeTask cd1 (("build").toList))).1 = 10 ∧
    specScoreWritten f1 .agent (analyzeTask cd1 (("build").toList)) = 0 ∧
    (scoreFeature f1 .agent (analyzeTask cd1 (("build").toList))).1
      ≠ specScoreWritten f1 .agent (analyzeTask cd1 (("build").toList)) :=
  ⟨by decide, by decide, by decide⟩

/-- Distributing an if over the pair update of one scoring signal. -/
theorem ite_pair_step (c : Prop) [Decidable c] (p : Nat × List Reason)
    (w : Nat) (r : Reason) :
    (if c then (p.1 + w, p.2 ++ [r]) else p)
      = (p.1 + (if c then w else 0), p.2 ++ (if c then [r] else [])) := by
  by_cases h : c
  · rw [if_pos h, if_pos h, if_pos h]
  · rw [if_neg h, if_neg h, if_neg h]
    simp

/-- C1 (amended): for every catalog, task, feature and type, the feature
scorer returns exactly the sum of the five additive signals — with signal
3 firing when the pluralized type name or the bare type name is in the
boosted feature types — and accumulates one reason per signal firing. -/
theorem scoreFeature_spec (cd : CategoriesData) (task : Str) (feature : Feature)
    (ty : FeatureType) :
    scoreFeature feature ty (analyzeTask cd task)
      = (specScore feature ty (analyzeTask cd task),
         specReasons feature ty (analyzeTask cd task)) := by
  have hlow : ∀ kw ∈ (analyzeTask cd task).keywords, lowStr kw = kw :=
    fun kw hkw => keywords_lower cd.categories (normalizeTask task) kw hkw
  have hpred : ∀ k : Str,
      (decide (k ∈ (analyzeTask cd task).keywords) : Bool)
        = ((analyzeTask cd task).keywords.any fun kw => decide (lowStr kw = k)) := by
    intro k
    rw [Bool.eq_iff_iff]
    simp only [decide_eq_true_eq, List.any_eq_true]
    constructor
    · intro hk
      exact ⟨k, hk, hlow k hk⟩
    · rintro ⟨kw, hkw, hdec⟩
      rw [← hdec, hlow kw hkw]
      exact hkw
  have hstep : (fun (acc : Nat × List Reason) keyword =>
      if decide (keyword.length ≥ 3) &&
          hasWholeWord (analyzeTask cd task).normalizedTask keyword then
        if !(decide (keyword ∈ (analyzeTask cd task).keywords)) then
          (acc.1 + 10, acc.2 ++ [.taskMentions keyword])
        else acc
      else acc)
    = (fun (acc : Nat × List Reason) keyword =>
      if (decide (keyword.length ≥ 3) &&
          hasWholeWord (analyzeTask cd task).normalizedTask keyword) &&
          !(decide (keyword ∈ (analyzeTask cd task).keywords)) then
        (acc.1 + 10, acc.2 ++ [.taskMentions keyword])
      else acc) := by
    funext acc keyword
    by_cases h1 : (decide (keyword.length ≥ 3) &&
        hasWholeWord (analyzeTask cd task).normalizedTask keyword) = true
    · by_cases h2 : (!(decide (keyword ∈ (analyzeTask cd task).keywords))) = true
      · simp [h1, h2]
      · simp [h1, h2]
    · simp [h1]
  simp only [scoreFeature]
  rw [hstep]
  rw [signal1_fold, signal2_fold]
  rw [ite_pair_step, ite_pair_step]
  rw [signal5_fold]
  dsimp only
  simp only [Prod.mk.injEq]
  constructor
  · rw [specScore, specSignal1, specSignal2, specSignal3, specSignal4, specSignal5]
    have hc : ((feature.keywords.map lowStr).countP fun keyword =>
        (decide (keyword.length ≥ 3) &&
          hasWholeWord (analyzeTask cd task).normalizedTask keyword) &&
        !(decide (keyword ∈ (analyzeTask cd task).keywords)))
      = ((feature.keywords.map lowStr).countP fun k =>
        decide (k.length ≥ 3) &&
          hasWholeWord (analyzeTask cd task).normalizedTask k &&
        !((analyzeTask cd task).keywords.any fun kw => decide (lowStr kw = k))) := by
      refine List.countP_congr fun k _ => ?_
      rw [hpred k]
    rw [hc]
    omega
  · rw [specReasons]
    have hf : ((feature.keywords.map lowStr).filter fun keyword =>
        (decide (keyword.length ≥ 3) &&
          hasWholeWord (analyzeTask cd task).normalizedTask keyword) &&
        !(decide (keyword ∈ (analyzeTask cd task).keywords)))
      = ((feature.keywords.map lowStr).filter fun k =>
        decide (k.length ≥ 3) &&
          hasWholeWord (analyzeTask cd task).normalizedTask k &&
        !((analyzeTask cd task).keywords.any fun kw => decide (lowStr kw = k))) := by
      refine List.filter_congr fun k _ => ?_
      rw [hpred k]
    rw [hf]
    simp [List.append_assoc]

/-- The number of non-whitespace characters of a task string, the quantity
the claim's minimum refers to. -/
def countNonWs (s : Str) : Nat := (s.filter fun c => !(isSpaceCh c)).length

/-- C8 as written, for fixed catalogs: both routes reject a missing,
non-string or under-3-non-whitespace-character task with a client error,
and return the engine result whenever the task has at least 3
non-whitespace characters. -/
def ClaimC8 (cd : CategoriesData) (fd : FeaturesData) : Prop :=
  (postAnalyze cd fd .missing).isError = true ∧
  (postAnalyze cd fd .notAString).isError = true ∧
  (postAnalyzeQuick cd .missing).isError = true ∧
  (postAnalyzeQuick cd .notAString).isError = true ∧
  (∀ s : Str, countNonWs s < 3 →
    (postAnalyze cd fd (.taskStr s)).isError = true ∧
    (postAnalyzeQuick cd (.taskStr s)).isError = true) ∧
  (∀ s : Str, 3 ≤ countNonWs s →
    postAnalyze cd fd (.taskStr s)
      = .ok (generateRecommendations fd (analyzeTask cd s)) ∧
    postAnalyzeQuick cd (.taskStr s) = .ok (quickAnalyze cd s))

/-- C8 counterexample category catalog. -/
def cd8 : CategoriesData :=
  { categories := [], taskPatterns := [], complexityIndicators := ⟨[], [], []⟩ }

/-- C8 counterexample feature catalog. -/
def fd8 : FeaturesData := {}

/-- C8 counterexample: the quick route runs the engine on the 2-character
task "ab" instead of rejecting it, and the full route accepts "a b" (JS
trims only the ends, so the trimmed length is 3) although it has just 2
non-whitespace characters; the claim as written is false. -/
theorem routes_counterexample :
    ¬ ClaimC8 cd8 fd8 ∧
    countNonWs (("ab").toList) < 3 ∧
    postAnalyzeQuick cd8 (.taskStr (("ab").toList))
      = .ok (quickAnalyze cd8 (("ab").toList)) ∧
    countNonWs (("a b").toList) < 3 ∧
    postAnalyze cd8 fd8 (.taskStr (("a b").toList))
      = .ok (generateRecommendations fd8 (analyzeTask cd8 (("a b").toList))) := by
  refine ⟨?_, by decide, rfl, by decide, rfl⟩
  intro h
  have h2 := (h.2.2.2.2.1 (("ab").toList) (by decide)).2
  exact absurd h2 (by decide)

/-- C8 (amended): both routes reject a missing, non-string or empty (falsy)
task; the full route additionally rejects exactly the tasks whose trimmed
length is below 3 and otherwise returns the engine result; the quick route
imposes no length minimum and runs the engine on every nonempty task
string. -/
theorem routes_spec (cd : CategoriesData) (fd : FeaturesData) :
    (postAnalyze cd fd .missing).isError = true ∧
    (postAnalyze cd fd .notAString).isError = true ∧
    (postAnalyzeQuick cd .missing).isError = true ∧
    (postAnalyzeQuick cd .notAString).isError = true ∧
    (∀ s : Str, (postAnalyze cd fd (.taskStr s)).isError = true
      ↔ (s = [] ∨ (trimWs s).length < 3)) ∧
    (∀ s : Str, postAnalyze cd fd (.taskStr s)
        = .ok (generateRecommendations fd (analyzeTask cd s))
      ↔ ¬(s = [] ∨ (trimWs s).length < 3)) ∧
    (∀ s : Str, (postAnalyzeQuick cd (.taskStr s)).isError = true ↔ s = []) ∧
    (∀ s : Str, postAnalyzeQuick cd (.taskStr s) = .ok (quickAnalyze cd s)
      ↔ s ≠ []) := by
  refine ⟨rfl, rfl, rfl, rfl, ?_, ?_, ?_, ?_⟩
  · intro s
    simp only [postAnalyze]
    by_cases h1 : s = []
    · simp [h1, FullResponse.isError]
    · rw [if_neg h1]
      by_cases h2 : (trimWs s).length < 3
      · simp [h1, h2, FullResponse.isError]
      · simp [h1, h2, FullResponse.isError]
  · intro s
    simp only [postAnalyze]
    by_cases h1 : s = []
    · simp [h1]
    · rw [if_neg h1]
      by_cases h2 : (trimWs s).length < 3
      · simp [h1, h2]
      · simp [h1, h2]
  · intro s
    simp only [postAnalyzeQuick]
    by_cases h1 : s = []
    · simp [h1, QuickResponse.isError]
    · simp [h1, QuickResponse.isError]
  · intro s
    simp only [postAnalyzeQuick]
    by_cases h1 : s = []
    · simp [h1]
    · simp [h1]

end CliHub
